import Mathlib

/-!
Shallow embedding of the NFT-minting DAO contract (src/app.py, Beaker/PyTeal).

The contract keeps two global values (`winning_proposal_votes`, `winning_proposal`)
and three box-storage regions (`has_voted` keyed by address, `proposals` and `votes`
keyed by (address, uint64)).  Boxes are modelled by association lists in which
`lookupA` reads the first binding of a key and `setA` replaces it (or appends a new
binding), matching box get/set.  The empty-bytes default of `winning_proposal` is
modelled by `none`; a stored encoded key by `some key`.  A transaction that fails an
`Assert` is rolled back whole by the AVM, so each method is a function returning
`Except`, where an error leaves the state untouched.  Each `DAOError` constructor
names the assertion site that fails.
-/

/-- An Algorand address: opaque, only used as a key. -/
def Identity : Type := Nat

instance : DecidableEq Identity := instDecidableEqNat
instance : OfNat Identity n := ⟨(n : Nat)⟩

/-- Key of the `proposals` and `votes` box regions: `abi.Tuple2[abi.Address, abi.Uint64]`. -/
def ProposalKey : Type := Identity × Nat

instance : DecidableEq ProposalKey := instDecidableEqProd

/-- A 32-byte digest (`abi.StaticArray[abi.Byte, 32]`). -/
def Bytes32 : Type := { l : List Nat // l.length = 32 }

instance : DecidableEq Bytes32 := Subtype.instDecidableEq

/-- `NFTProposal` record (src/app.py lines 9-14). -/
structure NFTProposal where
  url : String
  metadata_hash : Bytes32
  name : String
  unit_name : String
  reserve : Identity
deriving DecidableEq

/-- The payment transaction accompanying `add_proposal`; the contract reads only
its receiver and amount. -/
structure Payment where
  receiver : Identity
  amount : Nat
deriving DecidableEq

/-- The assertion sites at which each contract method can fail.  On Algorand all of
them are plain transaction failures; the names follow the call sites in src/app.py. -/
inductive DAOError where
  | DuplicateProposal
  | InsufficientFunding
  | NotFound
  | AlreadyVoted
  | NoWinner
  | MintingFailure
  | WrongBeneficiary
deriving DecidableEq

/-- Read the first binding of key `k` in an association list (box lookup). -/
def lookupA {κ β : Type} [DecidableEq κ] : List (κ × β) → κ → Option β
  | [], _ => none
  | (a, b) :: t, k => if a = k then some b else lookupA t k

/-- Replace the first binding of key `k` (or append one): box `set` semantics. -/
def setA {κ β : Type} [DecidableEq κ] : List (κ × β) → κ → β → List (κ × β)
  | [], k, v => [(k, v)]
  | (a, b) :: t, k, v => if a = k then (k, v) :: t else (a, b) :: setA t k v

/-- `DAOState` (src/app.py lines 20-41): the two globals and the three box regions. -/
structure DAOState where
  winning_proposal_votes : Nat
  winning_proposal : Option ProposalKey
  has_voted : List Identity
  proposals : List (ProposalKey × NFTProposal)
  votes : List (ProposalKey × Nat)
deriving DecidableEq

/-- `create` / `initialize_global_state`: globals at their defaults, no boxes. -/
def daoInit : DAOState :=
  { winning_proposal_votes := 0
    winning_proposal := none
    has_voted := []
    proposals := []
    votes := [] }

/-- `Global.current_application_address()`: the account owned by the contract, a fixed
ambient address distinct from no particular caller. -/
def appAddress : Identity := 0

/-- Byte length of the ABI encoding of an `NFTProposal`: a 70-byte head
(2-byte offsets for the three strings, 32 inline bytes of digest, 32 inline bytes
of address) plus a 2-byte length and the contents for each string tail. -/
def encodedLength (p : NFTProposal) : Nat :=
  76 + p.url.length + p.name.length + p.unit_name.length

/-- Algorand box minimum-balance cost: 2500 + 400 * (name length + content length).
A `proposals` box name is the 2-byte region tag plus the 40-byte encoded key. -/
def proposalBoxCost (p : NFTProposal) : Nat :=
  2500 + 400 * (42 + encodedLength p)

/-- Minimum balance of a `votes` box: 42-byte name, 8-byte uint64 content. -/
def voteBoxCost : Nat := 2500 + 400 * (42 + 8)

/-- Minimum balance of a `has_voted` box: 32-byte address name, 1-byte bool content. -/
def ballotBoxCost : Nat := 2500 + 400 * (32 + 1)

/-- `AccountParam.minBalance` of the application account as a function of the boxes
it holds: the base account minimum plus the cost of every allocated box. -/
def minBalance (s : DAOState) : Nat :=
  100000
    + (s.proposals.map (fun q => proposalBoxCost q.2)).sum
    + voteBoxCost * s.votes.length
    + ballotBoxCost * s.has_voted.length

/-- `add_proposal` (src/app.py lines 51-73).  In program order: assert the payment
goes to the application account, snapshot the minimum balance, build the key from
the sender and the caller-supplied id, assert no proposal box exists at that key,
write the proposal box, and assert the payment covers the minimum-balance growth. -/
def add_proposal (s : DAOState) (sender : Identity) (proposal : NFTProposal)
    (proposal_id : Nat) (mbr_payment : Payment) : Except DAOError DAOState :=
  if mbr_payment.receiver = appAddress then
    let preMbr := minBalance s
    let proposal_key : ProposalKey := (sender, proposal_id)
    if lookupA s.proposals proposal_key = none then
      let s1 := { s with proposals := setA s.proposals proposal_key proposal }
      if mbr_payment.amount ≥ minBalance s1 - preMbr then
        Except.ok s1
      else
        Except.error DAOError.InsufficientFunding
    else
      Except.error DAOError.DuplicateProposal
  else
    Except.error DAOError.WrongBeneficiary

/-- `vote` (src/app.py lines 76-105).  In program order: assert that no `has_voted` box exists for the sender, create the vote box with value 0 when absent,
read the count, write count+1, move the winner pointer when the new count strictly
exceeds the stored leading count, and finally mark the sender as having voted. -/
def vote (s : DAOState) (sender proposer : Identity) (proposal_id : Nat) :
    Except DAOError DAOState :=
  let proposal_key : ProposalKey := (proposer, proposal_id)
  if sender ∈ s.has_voted then
    Except.error DAOError.AlreadyVoted
  else
    let votes0 := if lookupA s.votes proposal_key = none
                  then setA s.votes proposal_key 0 else s.votes
    let total := (lookupA votes0 proposal_key).getD 0 + 1
    let votes1 := setA votes0 proposal_key total
    if total > s.winning_proposal_votes then
      Except.ok { s with votes := votes1
                         winning_proposal_votes := total
                         winning_proposal := some proposal_key
                         has_voted := sender :: s.has_voted }
    else
      Except.ok { s with votes := votes1
                         has_voted := sender :: s.has_voted }

/-- The asset-configuration inner transaction built by `mint_nft`
(src/app.py lines 152-163). -/
structure AssetConfig where
  config_asset_name : String
  config_asset_unit_name : String
  config_asset_reserve : Identity
  config_asset_url : String
  config_asset_metadata_hash : Bytes32
  config_asset_total : Nat
deriving DecidableEq

/-- `mint_nft` of the Minter contract (src/app.py lines 136-166): unpack the
proposal, issue an AssetConfig inner transaction with total supply 1, and return
the created asset id.  The asset-creation primitive of the ledger is the injected
capability `assetCreate`; `none` models a failing inner transaction. -/
def mint_nft (proposal : NFTProposal) (assetCreate : AssetConfig → Option Nat) :
    Option Nat :=
  assetCreate
    { config_asset_name := proposal.name
      config_asset_unit_name := proposal.unit_name
      config_asset_reserve := proposal.reserve
      config_asset_url := proposal.url
      config_asset_metadata_hash := proposal.metadata_hash
      config_asset_total := 1 }

/-- `mint` of the DAO contract (src/app.py lines 108-126): decode the winning
proposal key (the empty default decodes to nothing and the method fails), fetch
the proposal box at that key, delegate to `mint_nft`, and return the asset id.
The DAO state itself is returned unchanged on success. -/
def mint (s : DAOState) (assetCreate : AssetConfig → Option Nat) :
    Except DAOError (DAOState × Nat) :=
  match s.winning_proposal with
  | none => Except.error DAOError.NoWinner
  | some proposal_key =>
    match lookupA s.proposals proposal_key with
    | none => Except.error DAOError.NotFound
    | some proposal =>
      match mint_nft proposal assetCreate with
      | none => Except.error DAOError.MintingFailure
      | some assetId => Except.ok (s, assetId)

/-- One application call: its method and arguments. -/
inductive Op where
  | submit (sender : Identity) (proposal : NFTProposal) (proposal_id : Nat)
      (mbr_payment : Payment)
  | castVote (sender proposer : Identity) (proposal_id : Nat)
  | finalize (assetCreate : AssetConfig → Option Nat)

/-- Commit semantics of one call: a failed call is rolled back whole. -/
def step (s : DAOState) : Op → DAOState
  | Op.submit sender proposal proposal_id pay =>
    match add_proposal s sender proposal proposal_id pay with
    | Except.ok s1 => s1
    | Except.error _ => s
  | Op.castVote sender proposer proposal_id =>
    match vote s sender proposer proposal_id with
    | Except.ok s1 => s1
    | Except.error _ => s
  | Op.finalize assetCreate =>
    match mint s assetCreate with
    | Except.ok (s1, _) => s1
    | Except.error _ => s

/-- Run a sequence of calls. -/
def exec (s : DAOState) : List Op → DAOState
  | [] => s
  | op :: ops => exec (step s op) ops

/-- Total number of recorded votes: the sum of the counters of all vote boxes. -/
def sumCounts {κ : Type} : List (κ × Nat) → Nat
  | [] => 0
  | q :: t => q.2 + sumCounts t

/-- The counter value `vote` writes for the targeted key: previous count plus one
(a missing vote box counts as zero). -/
def newTotal (s : DAOState) (k : ProposalKey) : Nat :=
  (lookupA s.votes k).getD 0 + 1

/-- Invariant maintained by every call: every counter is bounded by the stored
leading count, the leading count is attained by some vote box (or still zero),
the counters sum to the number of ballot-guard boxes, and no identity has two
ballot-guard boxes. -/
structure DAOInv (s : DAOState) : Prop where
  counts_le : ∀ q ∈ s.votes, q.2 ≤ s.winning_proposal_votes
  attained : s.winning_proposal_votes = 0 ∨
    ∃ k, lookupA s.votes k = some s.winning_proposal_votes
  tally : sumCounts s.votes = s.has_voted.length
  voters_nodup : s.has_voted.Nodup

/-- Largest counter among the vote boxes (zero when none exists). -/
def maxCounts {κ : Type} : List (κ × Nat) → Nat
  | [] => 0
  | q :: t => max q.2 (maxCounts t)

/-- The trace casts votes only for keys holding a registered proposal: every
`castVote` call targets a key whose proposal box exists at the time of the call. -/
def votesRegistered : DAOState → List Op → Prop
  | _, [] => True
  | s, op :: ops =>
    (match op with
     | Op.castVote _ pr pid => (lookupA s.proposals (pr, pid)).isSome = true
     | _ => True) ∧ votesRegistered (step s op) ops

/-- The winner pointer, when set, references a key whose proposal box exists. -/
def winnerRegistered (s : DAOState) : Prop :=
  ∀ k, s.winning_proposal = some k → (lookupA s.proposals k).isSome = true

/-- An arbitrary 32-byte digest used in concrete instantiations. -/
def hash32 : Bytes32 := ⟨List.replicate 32 0, rfl⟩

/-- A concrete proposal used in concrete instantiations. -/
def sampleProposal : NFTProposal :=
  { url := "ipfs://x"
    metadata_hash := hash32
    name := "Art"
    unit_name := "ART"
    reserve := 9 }

/-- A payment to the application account covering exactly the minimum-balance
growth of storing `sampleProposal`. -/
def samplePay : Payment := { receiver := appAddress, amount := 55300 }

/-- The same payment, one unit short. -/
def lowPay : Payment := { receiver := appAddress, amount := 55299 }

/-! ### Association-list lemmas -/

theorem lookupA_setA_self {κ β : Type} [DecidableEq κ] (l : List (κ × β)) (k : κ) (v : β) :
    lookupA (setA l k v) k = some v := by
  induction l with
  | nil => simp [setA, lookupA]
  | cons q t ih =>
    obtain ⟨a, b⟩ := q
    by_cases h : a = k
    · simp [setA, h, lookupA]
    · simp [setA, h, lookupA, ih]

theorem lookupA_setA_ne {κ β : Type} [DecidableEq κ] (l : List (κ × β)) {k k' : κ} (v : β)
    (h : k' ≠ k) : lookupA (setA l k v) k' = lookupA l k' := by
  induction l with
  | nil => simp [setA, lookupA, Ne.symm h]
  | cons q t ih =>
    obtain ⟨a, b⟩ := q
    by_cases ha : a = k
    · simp [setA, ha, lookupA, Ne.symm h]
    · simp [setA, ha, lookupA, ih]

theorem mem_setA {κ β : Type} [DecidableEq κ] {l : List (κ × β)} {k : κ} {v : β}
    {q : κ × β} (h : q ∈ setA l k v) : q = (k, v) ∨ q ∈ l := by
  induction l with
  | nil => simpa [setA] using h
  | cons r t ih =>
    obtain ⟨a, b⟩ := r
    by_cases ha : a = k
    · rw [setA, if_pos ha] at h
      rcases List.mem_cons.mp h with h | h
      · exact Or.inl h
      · exact Or.inr (List.mem_cons_of_mem _ h)
    · rw [setA, if_neg ha] at h
      rcases List.mem_cons.mp h with h | h
      · exact Or.inr (h ▸ List.mem_cons_self _ _)
      · rcases ih h with h' | h'
        · exact Or.inl h'
        · exact Or.inr (List.mem_cons_of_mem _ h')

theorem setA_setA {κ β : Type} [DecidableEq κ] (l : List (κ × β)) (k : κ) (v w : β) :
    setA (setA l k v) k w = setA l k w := by
  induction l with
  | nil => simp [setA]
  | cons q t ih =>
    obtain ⟨a, b⟩ := q
    by_cases h : a = k
    · simp [setA, h]
    · simp [setA, h, ih]

theorem lookupA_mem {κ β : Type} [DecidableEq κ] {l : List (κ × β)} {k : κ} {v : β}
    (h : lookupA l k = some v) : (k, v) ∈ l := by
  induction l with
  | nil => simp [lookupA] at h
  | cons q t ih =>
    obtain ⟨a, b⟩ := q
    by_cases ha : a = k
    · rw [lookupA, if_pos ha] at h
      subst ha
      cases Option.some.inj h
      exact List.mem_cons_self _ _
    · rw [lookupA, if_neg ha] at h
      exact List.mem_cons_of_mem _ (ih h)

theorem sumCounts_setA {κ : Type} [DecidableEq κ] (l : List (κ × Nat)) (k : κ) (v : Nat) :
    sumCounts (setA l k v) + (lookupA l k).getD 0 = sumCounts l + v := by
  induction l with
  | nil => simp [setA, lookupA, sumCounts]
  | cons q t ih =>
    obtain ⟨a, b⟩ := q
    by_cases h : a = k
    · rw [setA, if_pos h, lookupA, if_pos h]
      simp only [sumCounts, Option.getD_some]
      omega
    · rw [setA, if_neg h, lookupA, if_neg h]
      simp only [sumCounts]
      omega

/-! ### Characterizations of the three methods -/

/-- `vote` with the transient create-at-zero step of the vote box folded away. -/
theorem vote_eq (s : DAOState) (i pr : Identity) (pid : Nat) :
    vote s i pr pid =
      if i ∈ s.has_voted then Except.error DAOError.AlreadyVoted
      else if newTotal s (pr, pid) > s.winning_proposal_votes then
        Except.ok { s with votes := setA s.votes (pr, pid) (newTotal s (pr, pid))
                           winning_proposal_votes := newTotal s (pr, pid)
                           winning_proposal := some (pr, pid)
                           has_voted := i :: s.has_voted }
      else
        Except.ok { s with votes := setA s.votes (pr, pid) (newTotal s (pr, pid))
                           has_voted := i :: s.has_voted } := by
  by_cases hm : i ∈ s.has_voted
  · simp [vote, hm]
  · by_cases hl : lookupA s.votes (pr, pid) = none
    · simp [vote, hm, hl, newTotal, lookupA_setA_self, setA_setA]
    · simp [vote, hm, hl, newTotal]

theorem add_proposal_ok {s s' : DAOState} {a : Identity} {p : NFTProposal} {pid : Nat}
    {pay : Payment} (h : add_proposal s a p pid pay = Except.ok s') :
    pay.receiver = appAddress ∧ lookupA s.proposals (a, pid) = none ∧
      pay.amount ≥ minBalance { s with proposals := setA s.proposals (a, pid) p } - minBalance s ∧
      s' = { s with proposals := setA s.proposals (a, pid) p } := by
  by_cases h1 : pay.receiver = appAddress
  · by_cases h2 : lookupA s.proposals (a, pid) = none
    · by_cases h3 : pay.amount ≥ minBalance { s with proposals := setA s.proposals (a, pid) p } - minBalance s
      · refine ⟨h1, h2, h3, ?_⟩
        simp only [add_proposal, h1, if_pos rfl, h2, if_pos rfl, ge_iff_le] at h
        rw [if_pos h3] at h
        exact (Except.ok.injEq _ _ ▸ h).symm
      · simp only [add_proposal, h1, if_pos rfl, h2, if_pos rfl, ge_iff_le] at h
        rw [if_neg h3] at h
        exact absurd h (by simp)
    · simp [add_proposal, h1, h2] at h
  · simp [add_proposal, h1] at h

theorem mint_ok {s s' : DAOState} {ac : AssetConfig → Option Nat} {aid : Nat}
    (h : mint s ac = Except.ok (s', aid)) : s' = s := by
  unfold mint at h
  split at h
  · exact Except.noConfusion h
  · split at h
    · exact Except.noConfusion h
    · split at h
      · exact Except.noConfusion h
      · exact (congrArg Prod.fst (Except.ok.inj h)).symm

/-! ### Commit semantics of single calls -/

theorem step_submit_ok {s s' : DAOState} {a : Identity} {p : NFTProposal} {pid : Nat}
    {pay : Payment} (h : add_proposal s a p pid pay = Except.ok s') :
    step s (Op.submit a p pid pay) = s' := by
  simp [step, h]

theorem step_castVote_ok {s s' : DAOState} {i pr : Identity} {pid : Nat}
    (h : vote s i pr pid = Except.ok s') : step s (Op.castVote i pr pid) = s' := by
  simp [step, h]

theorem step_castVote_err {s : DAOState} {i pr : Identity} {pid : Nat} {e : DAOError}
    (h : vote s i pr pid = Except.error e) : step s (Op.castVote i pr pid) = s := by
  simp [step, h]

/-- `mint` never changes the DAO state, so `finalize` commits nothing. -/
theorem step_finalize (s : DAOState) (ac : AssetConfig → Option Nat) :
    step s (Op.finalize ac) = s := by
  simp only [step]
  cases hm : mint s ac with
  | error e => rfl
  | ok q =>
    obtain ⟨s1, aid⟩ := q
    simpa using mint_ok hm

/-! ### The reachable-state invariant -/

theorem inv_init : DAOInv daoInit :=
  ⟨by simp [daoInit], Or.inl rfl, rfl, List.nodup_nil⟩

theorem inv_add_proposal {s s' : DAOState} {a : Identity} {p : NFTProposal} {pid : Nat}
    {pay : Payment} (inv : DAOInv s) (h : add_proposal s a p pid pay = Except.ok s') :
    DAOInv s' := by
  obtain ⟨-, -, -, rfl⟩ := add_proposal_ok h
  exact ⟨inv.counts_le, inv.attained, inv.tally, inv.voters_nodup⟩

theorem inv_vote {s s' : DAOState} {i pr : Identity} {pid : Nat} (inv : DAOInv s)
    (h : vote s i pr pid = Except.ok s') : DAOInv s' := by
  rw [vote_eq] at h
  by_cases hm : i ∈ s.has_voted
  · rw [if_pos hm] at h
    exact Except.noConfusion h
  · rw [if_neg hm] at h
    have hsum := sumCounts_setA s.votes (pr, pid) (newTotal s (pr, pid))
    by_cases hw : newTotal s (pr, pid) > s.winning_proposal_votes
    · rw [if_pos hw] at h
      cases Except.ok.inj h
      refine ⟨?_, ?_, ?_, ?_⟩
      · intro q hq
        rcases mem_setA hq with rfl | hq'
        · exact le_refl _
        · exact le_of_lt (lt_of_le_of_lt (inv.counts_le q hq') hw)
      · exact Or.inr ⟨(pr, pid), lookupA_setA_self _ _ _⟩
      · have htally := inv.tally
        have hN : newTotal s (pr, pid) = (lookupA s.votes (pr, pid)).getD 0 + 1 := rfl
        simp only [List.length_cons]
        omega
      · exact List.nodup_cons.mpr ⟨hm, inv.voters_nodup⟩
    · rw [if_neg hw] at h
      cases Except.ok.inj h
      have hT : newTotal s (pr, pid) ≤ s.winning_proposal_votes := Nat.not_lt.mp hw
      refine ⟨?_, ?_, ?_, ?_⟩
      · intro q hq
        rcases mem_setA hq with rfl | hq'
        · exact hT
        · exact inv.counts_le q hq'
      · rcases inv.attained with h0 | ⟨k0, hk0⟩
        · exfalso
          unfold newTotal at hT
          omega
        · refine Or.inr ⟨k0, ?_⟩
          have hne : k0 ≠ (pr, pid) := by
            intro hkk
            rw [hkk] at hk0
            unfold newTotal at hT
            rw [hk0] at hT
            simp at hT
          rw [lookupA_setA_ne _ _ hne]
          exact hk0
      · have htally := inv.tally
        have hN : newTotal s (pr, pid) = (lookupA s.votes (pr, pid)).getD 0 + 1 := rfl
        simp only [List.length_cons]
        omega
      · exact List.nodup_cons.mpr ⟨hm, inv.voters_nodup⟩

theorem inv_step {s : DAOState} (inv : DAOInv s) (op : Op) : DAOInv (step s op) := by
  cases op with
  | submit a p pid pay =>
    simp only [step]
    cases h : add_proposal s a p pid pay with
    | ok s1 => exact inv_add_proposal inv h
    | error e => exact inv
  | castVote i pr pid =>
    simp only [step]
    cases h : vote s i pr pid with
    | ok s1 => exact inv_vote inv h
    | error e => exact inv
  | finalize ac =>
    rw [step_finalize]
    exact inv

theorem inv_exec {s : DAOState} (inv : DAOInv s) : ∀ ops : List Op, DAOInv (exec s ops)
  | [] => inv
  | op :: ops => inv_exec (inv_step inv op) ops

/-! ### Monotone facts preserved by every call -/

theorem has_voted_mono_step {s : DAOState} {i : Identity} (h : i ∈ s.has_voted)
    (op : Op) : i ∈ (step s op).has_voted := by
  cases op with
  | submit a p pid pay =>
    simp only [step]
    cases hh : add_proposal s a p pid pay with
    | ok s1 =>
      obtain ⟨-, -, -, rfl⟩ := add_proposal_ok hh
      exact h
    | error e => exact h
  | castVote j pr pid =>
    simp only [step]
    cases hh : vote s j pr pid with
    | error e => exact h
    | ok s1 =>
      rw [vote_eq] at hh
      by_cases hm : j ∈ s.has_voted
      · rw [if_pos hm] at hh
        exact Except.noConfusion hh
      · rw [if_neg hm] at hh
        by_cases hw : newTotal s (pr, pid) > s.winning_proposal_votes
        · rw [if_pos hw] at hh
          cases Except.ok.inj hh
          exact List.mem_cons_of_mem _ h
        · rw [if_neg hw] at hh
          cases Except.ok.inj hh
          exact List.mem_cons_of_mem _ h
  | finalize ac =>
    rw [step_finalize]
    exact h

theorem has_voted_mono_exec {s : DAOState} {i : Identity} (h : i ∈ s.has_voted) :
    ∀ ops : List Op, i ∈ (exec s ops).has_voted
  | [] => h
  | op :: ops => has_voted_mono_exec (has_voted_mono_step h op) ops

theorem proposals_mono_step {s : DAOState} {k : ProposalKey} {p : NFTProposal}
    (h : lookupA s.proposals k = some p) (op : Op) :
    lookupA (step s op).proposals k = some p := by
  cases op with
  | submit a p' pid pay =>
    simp only [step]
    cases hh : add_proposal s a p' pid pay with
    | error e => exact h
    | ok s1 =>
      obtain ⟨-, hnone, -, rfl⟩ := add_proposal_ok hh
      have hne : k ≠ (a, pid) := by
        intro hk
        rw [hk] at h
        rw [h] at hnone
        exact Option.noConfusion hnone
      rw [lookupA_setA_ne _ _ hne]
      exact h
  | castVote j pr pid =>
    simp only [step]
    cases hh : vote s j pr pid with
    | error e => exact h
    | ok s1 =>
      rw [vote_eq] at hh
      by_cases hm : j ∈ s.has_voted
      · rw [if_pos hm] at hh
        exact Except.noConfusion hh
      · rw [if_neg hm] at hh
        by_cases hw : newTotal s (pr, pid) > s.winning_proposal_votes
        · rw [if_pos hw] at hh
          cases Except.ok.inj hh
          exact h
        · rw [if_neg hw] at hh
          cases Except.ok.inj hh
          exact h
  | finalize ac =>
    rw [step_finalize]
    exact h

theorem proposals_mono_exec {s : DAOState} {k : ProposalKey} {p : NFTProposal}
    (h : lookupA s.proposals k = some p) :
    ∀ ops : List Op, lookupA (exec s ops).proposals k = some p
  | [] => h
  | op :: ops => proposals_mono_exec (proposals_mono_step h op) ops

/-! ### Further characterizations -/

theorem vote_ok_state {s s' : DAOState} {i pr : Identity} {pid : Nat}
    (h : vote s i pr pid = Except.ok s') :
    i ∉ s.has_voted ∧
      ((newTotal s (pr, pid) > s.winning_proposal_votes ∧
          s' = { s with votes := setA s.votes (pr, pid) (newTotal s (pr, pid))
                        winning_proposal_votes := newTotal s (pr, pid)
                        winning_proposal := some (pr, pid)
                        has_voted := i :: s.has_voted }) ∨
        (newTotal s (pr, pid) ≤ s.winning_proposal_votes ∧
          s' = { s with votes := setA s.votes (pr, pid) (newTotal s (pr, pid))
                        has_voted := i :: s.has_voted })) := by
  rw [vote_eq] at h
  by_cases hm : i ∈ s.has_voted
  · rw [if_pos hm] at h
    exact Except.noConfusion h
  · rw [if_neg hm] at h
    refine ⟨hm, ?_⟩
    by_cases hw : newTotal s (pr, pid) > s.winning_proposal_votes
    · rw [if_pos hw] at h
      exact Or.inl ⟨hw, (Except.ok.inj h).symm⟩
    · rw [if_neg hw] at h
      exact Or.inr ⟨Nat.not_lt.mp hw, (Except.ok.inj h).symm⟩

theorem vote_ok_sender_marked {s s' : DAOState} {i pr : Identity} {pid : Nat}
    (h : vote s i pr pid = Except.ok s') : i ∈ s'.has_voted := by
  rcases (vote_ok_state h).2 with ⟨-, rfl⟩ | ⟨-, rfl⟩ <;> exact List.mem_cons_self _ _

theorem maxCounts_le {κ : Type} {l : List (κ × Nat)} {W : Nat}
    (h : ∀ q ∈ l, q.2 ≤ W) : maxCounts l ≤ W := by
  induction l with
  | nil => exact Nat.zero_le W
  | cons q t ih =>
    exact max_le (h q (List.mem_cons_self _ _))
      (ih fun r hr => h r (List.mem_cons_of_mem _ hr))

theorem le_maxCounts {κ : Type} {l : List (κ × Nat)} {k : κ} {c : Nat}
    (h : (k, c) ∈ l) : c ≤ maxCounts l := by
  induction l with
  | nil => simp at h
  | cons q t ih =>
    rcases List.mem_cons.mp h with h | h
    · cases h.symm
      exact le_max_left _ _
    · exact le_trans (ih h) (le_max_right _ _)

/-- In every state satisfying the invariant, the stored leading count is exactly
the largest counter among the vote boxes. -/
theorem winning_eq_maxCounts {s : DAOState} (inv : DAOInv s) :
    s.winning_proposal_votes = maxCounts s.votes := by
  rcases inv.attained with h0 | ⟨k, hk⟩
  · have hle : maxCounts s.votes ≤ 0 :=
      maxCounts_le (fun q hq => h0 ▸ inv.counts_le q hq)
    omega
  · exact le_antisymm (le_maxCounts (lookupA_mem hk)) (maxCounts_le inv.counts_le)

theorem lookupA_setA_isSome {κ β : Type} [DecidableEq κ] {l : List (κ × β)} {k k' : κ}
    (v : β) (h : (lookupA l k).isSome = true) :
    (lookupA (setA l k' v) k).isSome = true := by
  by_cases hk : k = k'
  · subst hk
    rw [lookupA_setA_self]
    rfl
  · rw [lookupA_setA_ne _ _ hk]
    exact h

theorem winnerRegistered_step {s : DAOState} {op : Op} (hw : winnerRegistered s)
    (hc : match op with
          | Op.castVote _ pr pid => (lookupA s.proposals (pr, pid)).isSome = true
          | _ => True) :
    winnerRegistered (step s op) := by
  cases op with
  | submit a p pid pay =>
    simp only [step]
    cases hh : add_proposal s a p pid pay with
    | error e => exact hw
    | ok s1 =>
      obtain ⟨-, -, -, rfl⟩ := add_proposal_ok hh
      intro k hk
      exact lookupA_setA_isSome _ (hw k hk)
  | castVote j pr pid =>
    simp only [step]
    cases hh : vote s j pr pid with
    | error e => exact hw
    | ok s1 =>
      rcases (vote_ok_state hh).2 with ⟨-, rfl⟩ | ⟨-, rfl⟩
      · intro k hk
        cases Option.some.inj hk
        exact hc
      · intro k hk
        exact hw k hk
  | finalize ac =>
    rw [step_finalize]
    exact hw

theorem winnerRegistered_exec :
    ∀ (ops : List Op) {s : DAOState}, winnerRegistered s → votesRegistered s ops →
      winnerRegistered (exec s ops)
  | [], _, hw, _ => hw
  | _ :: ops, _, hw, hv =>
    winnerRegistered_exec ops (winnerRegistered_step hw hv.1) hv.2

/-! ### The claims -/

/-- C1: once `castVote(i, k1)` has succeeded, every later `castVote(i, k2)` — after
any further sequence of calls, for the same or a different proposal key — fails
with AlreadyVoted, and the failed call commits nothing, so no vote count changes. -/
theorem claim_double_vote_prevented
    (s s1 : DAOState) (i pr : Identity) (pid : Nat)
    (h : vote s i pr pid = Except.ok s1)
    (ops : List Op) (pr' : Identity) (pid' : Nat) :
    vote (exec s1 ops) i pr' pid' = Except.error DAOError.AlreadyVoted ∧
      step (exec s1 ops) (Op.castVote i pr' pid') = exec s1 ops := by
  have hv2 : i ∈ (exec s1 ops).has_voted :=
    has_voted_mono_exec (vote_ok_sender_marked h) ops
  have herr : vote (exec s1 ops) i pr' pid' = Except.error DAOError.AlreadyVoted := by
    rw [vote_eq, if_pos hv2]
  exact ⟨herr, step_castVote_err herr⟩

/-- C1 witness: voter 1 votes once; after a further vote by voter 5, the second
attempt by voter 1 at a different key fails with AlreadyVoted and changes nothing. -/
theorem claim_double_vote_prevented_witness :
    vote (exec (exec daoInit [Op.castVote 1 2 0]) [Op.castVote 5 2 0]) 1 3 7
        = Except.error DAOError.AlreadyVoted ∧
      step (exec (exec daoInit [Op.castVote 1 2 0]) [Op.castVote 5 2 0])
          (Op.castVote 1 3 7)
        = exec (exec daoInit [Op.castVote 1 2 0]) [Op.castVote 5 2 0] :=
  claim_double_vote_prevented daoInit (exec daoInit [Op.castVote 1 2 0]) 1 2 0 rfl
    [Op.castVote 5 2 0] 3 7

/-- C2: in every reachable state the stored leading count equals the maximum vote
count over the keys voted on; a further accepted vote moves the pointer or the
leading count only when its newly incremented count strictly exceeds the stored
leading count; on a tie both are retained, keeping the first key to reach it. -/
theorem claim_winner_monotone (ops : List Op) :
    (exec daoInit ops).winning_proposal_votes = maxCounts (exec daoInit ops).votes ∧
      (∀ (i pr : Identity) (pid : Nat) (s' : DAOState),
        vote (exec daoInit ops) i pr pid = Except.ok s' →
        (s'.winning_proposal ≠ (exec daoInit ops).winning_proposal ∨
            s'.winning_proposal_votes ≠ (exec daoInit ops).winning_proposal_votes) →
        newTotal (exec daoInit ops) (pr, pid) >
          (exec daoInit ops).winning_proposal_votes) ∧
      (∀ (i pr : Identity) (pid : Nat) (s' : DAOState),
        vote (exec daoInit ops) i pr pid = Except.ok s' →
        newTotal (exec daoInit ops) (pr, pid) ≤
          (exec daoInit ops).winning_proposal_votes →
        s'.winning_proposal = (exec daoInit ops).winning_proposal ∧
          s'.winning_proposal_votes = (exec daoInit ops).winning_proposal_votes) := by
  refine ⟨winning_eq_maxCounts (inv_exec inv_init ops), ?_, ?_⟩
  · intro i pr pid s' h hne
    rcases (vote_ok_state h).2 with ⟨hgt, rfl⟩ | ⟨hle, rfl⟩
    · exact hgt
    · exfalso
      rcases hne with hne | hne <;> exact hne rfl
  · intro i pr pid s' h hle
    rcases (vote_ok_state h).2 with ⟨hgt, rfl⟩ | ⟨-, rfl⟩
    · exact absurd hle (Nat.not_le.mpr hgt)
    · exact ⟨rfl, rfl⟩

/-- C2 witness: after one vote the leading count is the maximum; a tying second
vote for a different key leaves the pointer and the leading count unchanged. -/
theorem claim_winner_monotone_witness :
    (exec daoInit [Op.castVote 1 5 0]).winning_proposal_votes
        = maxCounts (exec daoInit [Op.castVote 1 5 0]).votes ∧
      ((exec daoInit [Op.castVote 1 5 0, Op.castVote 2 6 0]).winning_proposal
          = (exec daoInit [Op.castVote 1 5 0]).winning_proposal ∧
        (exec daoInit [Op.castVote 1 5 0, Op.castVote 2 6 0]).winning_proposal_votes
          = (exec daoInit [Op.castVote 1 5 0]).winning_proposal_votes) :=
  ⟨(claim_winner_monotone [Op.castVote 1 5 0]).1,
    (claim_winner_monotone [Op.castVote 1 5 0]).2.2 2 6 0
      (exec daoInit [Op.castVote 1 5 0, Op.castVote 2 6 0]) rfl (by decide)⟩

/-- C3: in every reachable state the vote counters sum to the number of distinct
identities whose ballot-guard box is set. -/
theorem claim_tally_conservation (ops : List Op) :
    sumCounts (exec daoInit ops).votes
      = ((exec daoInit ops).has_voted).toFinset.card := by
  have inv := inv_exec inv_init ops
  rw [List.toFinset_card_of_nodup inv.voters_nodup, inv.tally]

/-- C4: after `submit(k, p1, f)` succeeds, any later submission at the same key
whose payment designates the application account (the stated precondition of
submit) fails with DuplicateProposal, and the registry still returns `p1`. -/
theorem claim_duplicate_proposal_rejected
    (s s1 : DAOState) (a : Identity) (p1 : NFTProposal) (pid : Nat) (pay : Payment)
    (h : add_proposal s a p1 pid pay = Except.ok s1)
    (ops : List Op) (p2 : NFTProposal) (pay' : Payment)
    (hpay : pay'.receiver = appAddress) :
    add_proposal (exec s1 ops) a p2 pid pay' = Except.error DAOError.DuplicateProposal ∧
      lookupA (exec s1 ops).proposals (a, pid) = some p1 := by
  obtain ⟨-, -, -, rfl⟩ := add_proposal_ok h
  have hp0 : lookupA ({ s with proposals := setA s.proposals (a, pid) p1 } :
      DAOState).proposals (a, pid) = some p1 := lookupA_setA_self _ _ _
  have hp2 := proposals_mono_exec hp0 ops
  refine ⟨?_, hp2⟩
  simp [add_proposal, hpay, hp2]

/-- C4 witness: proposer 4 registers at key (4, 0); after a vote, a second
submission at (4, 0) fails with DuplicateProposal and the stored proposal is kept. -/
theorem claim_duplicate_proposal_rejected_witness :
    add_proposal (exec (exec daoInit [Op.submit 4 sampleProposal 0 samplePay])
          [Op.castVote 1 4 0]) 4 sampleProposal 0 samplePay
        = Except.error DAOError.DuplicateProposal ∧
      lookupA (exec (exec daoInit [Op.submit 4 sampleProposal 0 samplePay])
          [Op.castVote 1 4 0]).proposals (4, 0) = some sampleProposal :=
  claim_duplicate_proposal_rejected daoInit
    (exec daoInit [Op.submit 4 sampleProposal 0 samplePay]) 4 sampleProposal 0
    samplePay rfl [Op.castVote 1 4 0] sampleProposal samplePay rfl

/-- C5: a submission at a fresh key whose payment to the application account is
strictly below the measured minimum-balance delta of writing the proposal fails
with InsufficientFunding and commits nothing: the key is still absent afterwards. -/
theorem claim_insufficient_funding
    (s : DAOState) (a : Identity) (p : NFTProposal) (pid : Nat) (pay : Payment)
    (hpay : pay.receiver = appAddress)
    (habs : lookupA s.proposals (a, pid) = none)
    (hlt : pay.amount <
      minBalance { s with proposals := setA s.proposals (a, pid) p } - minBalance s) :
    add_proposal s a p pid pay = Except.error DAOError.InsufficientFunding ∧
      step s (Op.submit a p pid pay) = s ∧
      lookupA (step s (Op.submit a p pid pay)).proposals (a, pid) = none := by
  have herr : add_proposal s a p pid pay = Except.error DAOError.InsufficientFunding := by
    simp [add_proposal, hpay, habs, Nat.not_le.mpr hlt]
  have hstep : step s (Op.submit a p pid pay) = s := by
    simp [step, herr]
  refine ⟨herr, hstep, ?_⟩
  rw [hstep]
  exact habs

/-- C5 witness: funding one unit below the measured delta of storing
`sampleProposal` fails with InsufficientFunding and the key stays absent. -/
theorem claim_insufficient_funding_witness :
    add_proposal daoInit 4 sampleProposal 0 lowPay
        = Except.error DAOError.InsufficientFunding ∧
      step daoInit (Op.submit 4 sampleProposal 0 lowPay) = daoInit ∧
      lookupA (step daoInit (Op.submit 4 sampleProposal 0 lowPay)).proposals (4, 0)
        = none :=
  claim_insufficient_funding daoInit 4 sampleProposal 0 lowPay rfl rfl (by decide)

/-- C6: a stored proposal is never changed or removed — after any further sequence
of submissions, votes and finalizations, the registry still returns the originally
stored proposal at its key. -/
theorem claim_proposal_immutable (s : DAOState) (k : ProposalKey) (p : NFTProposal)
    (h : lookupA s.proposals k = some p) (ops : List Op) :
    lookupA (exec s ops).proposals k = some p :=
  proposals_mono_exec h ops

/-- C6 witness: the proposal stored at (4, 0) survives a vote and a finalization. -/
theorem claim_proposal_immutable_witness :
    lookupA (exec (exec daoInit [Op.submit 4 sampleProposal 0 samplePay])
        [Op.castVote 1 4 0, Op.finalize (fun _ => some 5)]).proposals (4, 0)
      = some sampleProposal :=
  claim_proposal_immutable (exec daoInit [Op.submit 4 sampleProposal 0 samplePay])
    (4, 0) sampleProposal rfl [Op.castVote 1 4 0, Op.finalize (fun _ => some 5)]

/-- C7: `mint` fails with NoWinner while the winner pointer still holds its empty
default, and a successful call leaves the state unchanged, so after a fixed
sequence of calls repeated finalizations resolve identically. -/
theorem claim_finalize_deterministic (ops : List Op) (ac : AssetConfig → Option Nat) :
    ((exec daoInit ops).winning_proposal = none →
      mint (exec daoInit ops) ac = Except.error DAOError.NoWinner) ∧
      (∀ (s' : DAOState) (aid : Nat),
        mint (exec daoInit ops) ac = Except.ok (s', aid) →
        s' = exec daoInit ops ∧ mint s' ac = mint (exec daoInit ops) ac) := by
  constructor
  · intro hw
    simp [mint, hw]
  · intro s' aid h
    have hs := mint_ok h
    exact ⟨hs, by rw [hs]⟩

/-- C7 witness: with no vote cast, `mint` fails with NoWinner; after a submission
and a vote, a successful `mint` leaves the state unchanged and repeats identically. -/
theorem claim_finalize_deterministic_witness :
    mint (exec daoInit []) (fun _ => some 7) = Except.error DAOError.NoWinner ∧
      (exec daoInit [Op.submit 4 sampleProposal 0 samplePay, Op.castVote 1 4 0]
          = exec daoInit [Op.submit 4 sampleProposal 0 samplePay, Op.castVote 1 4 0] ∧
        mint (exec daoInit [Op.submit 4 sampleProposal 0 samplePay, Op.castVote 1 4 0])
            (fun _ => some 7)
          = mint (exec daoInit [Op.submit 4 sampleProposal 0 samplePay, Op.castVote 1 4 0])
              (fun _ => some 7)) :=
  ⟨(claim_finalize_deterministic [] (fun _ => some 7)).1 rfl,
    (claim_finalize_deterministic
        [Op.submit 4 sampleProposal 0 samplePay, Op.castVote 1 4 0] (fun _ => some 7)).2
      (exec daoInit [Op.submit 4 sampleProposal 0 samplePay, Op.castVote 1 4 0]) 7 rfl⟩

/-- C8 counterexample: `vote` does not require a registered proposal, so a single
vote for the bare key (2, 0) reaches a state whose winner pointer decodes to a key
with no stored proposal, and `mint` there takes the NotFound branch. -/
theorem claim_notfound_reachable_counterexample :
    (exec daoInit [Op.castVote 1 2 0]).winning_proposal = some (2, 0) ∧
      lookupA (exec daoInit [Op.castVote 1 2 0]).proposals (2, 0) = none ∧
      mint (exec daoInit [Op.castVote 1 2 0]) (fun _ => some 7)
        = Except.error DAOError.NotFound :=
  ⟨rfl, rfl, rfl⟩

/-- C8 amended: the NotFound branch of the proposal fetch in `mint` is unreachable
provided every vote in the trace targeted a key holding a registered proposal;
without that restriction the branch is reachable. -/
theorem claim_notfound_unreachable_for_registered_votes
    (ops : List Op) (ac : AssetConfig → Option Nat)
    (h : votesRegistered daoInit ops) :
    mint (exec daoInit ops) ac ≠ Except.error DAOError.NotFound := by
  have hreg : winnerRegistered (exec daoInit ops) :=
    winnerRegistered_exec ops (fun k hk => Option.noConfusion hk) h
  intro hc
  rcases hw : (exec daoInit ops).winning_proposal with _ | k
  · simp [mint, hw] at hc
  · have hsome := hreg k hw
    rcases hp : lookupA (exec daoInit ops).proposals k with _ | p
    · rw [hp] at hsome
      simp at hsome
    · rcases hm : mint_nft p ac with _ | aid
      · simp [mint, hw, hp, hm] at hc
      · simp [mint, hw, hp, hm] at hc

/-- C8 amended witness: in a trace that votes only for the registered key (4, 0),
`mint` does not fail with NotFound. -/
theorem claim_notfound_unreachable_witness :
    mint (exec daoInit [Op.submit 4 sampleProposal 0 samplePay, Op.castVote 1 4 0])
        (fun _ => some 7) ≠ Except.error DAOError.NotFound :=
  claim_notfound_unreachable_for_registered_votes
    [Op.submit 4 sampleProposal 0 samplePay, Op.castVote 1 4 0] (fun _ => some 7)
    ⟨trivial, rfl, trivial⟩

/-- C9: when the winner pointer references a stored proposal, `mint` hands the
minting authority exactly the stored url, 32-byte digest, display name, unit
symbol and reserve identity with total issuance fixed at 1, and returns the asset
id the authority assigns, leaving the DAO state unchanged. -/
theorem claim_mint_delegates_full_proposal
    (s : DAOState) (k : ProposalKey) (p : NFTProposal)
    (ac : AssetConfig → Option Nat) (aid : Nat)
    (hw : s.winning_proposal = some k)
    (hp : lookupA s.proposals k = some p)
    (hac : ac { config_asset_name := p.name
                config_asset_unit_name := p.unit_name
                config_asset_reserve := p.reserve
                config_asset_url := p.url
                config_asset_metadata_hash := p.metadata_hash
                config_asset_total := 1 } = some aid) :
    mint s ac = Except.ok (s, aid) := by
  simp [mint, hw, hp, mint_nft, hac]

/-- C9 witness: after registering `sampleProposal` and one vote for it, `mint`
with an authority assigning asset id 7 returns 7 and keeps the state. -/
theorem claim_mint_delegates_full_proposal_witness :
    mint (exec daoInit [Op.submit 4 sampleProposal 0 samplePay, Op.castVote 1 4 0])
        (fun _ => some 7)
      = Except.ok
          (exec daoInit [Op.submit 4 sampleProposal 0 samplePay, Op.castVote 1 4 0], 7) :=
  claim_mint_delegates_full_proposal
    (exec daoInit [Op.submit 4 sampleProposal 0 samplePay, Op.castVote 1 4 0])
    (4, 0) sampleProposal (fun _ => some 7) 7 rfl rfl rfl

/-- C10: `castVote` checks only the ballot guard: a sender not yet marked succeeds
for an arbitrary key — registered or not — writing count+1 at that key and, when
the new count strictly leads, pointing the winner at that key; conversely a failing
`castVote` can only fail with AlreadyVoted, on an already marked sender. -/
theorem claim_vote_skips_registration_check
    (s : DAOState) (i pr : Identity) (pid : Nat) (h : i ∉ s.has_voted) :
    (∃ s', vote s i pr pid = Except.ok s' ∧
        lookupA s'.votes (pr, pid) = some (newTotal s (pr, pid)) ∧
        (newTotal s (pr, pid) > s.winning_proposal_votes →
          s'.winning_proposal = some (pr, pid))) ∧
      (∀ (t : DAOState) (j q : Identity) (m : Nat) (e : DAOError),
        vote t j q m = Except.error e →
        e = DAOError.AlreadyVoted ∧ j ∈ t.has_voted) := by
  constructor
  · rw [vote_eq, if_neg h]
    by_cases hw : newTotal s (pr, pid) > s.winning_proposal_votes
    · rw [if_pos hw]
      exact ⟨_, rfl, lookupA_setA_self _ _ _, fun _ => rfl⟩
    · rw [if_neg hw]
      exact ⟨_, rfl, lookupA_setA_self _ _ _, fun hgt => absurd hgt hw⟩
  · intro t j q m e he
    rw [vote_eq] at he
    by_cases hm : j ∈ t.has_voted
    · rw [if_pos hm] at he
      exact ⟨(Except.error.inj he).symm, hm⟩
    · rw [if_neg hm] at he
      by_cases hw : newTotal t (q, m) > t.winning_proposal_votes
      · rw [if_pos hw] at he
        exact Except.noConfusion he
      · rw [if_neg hw] at he
        exact Except.noConfusion he

/-- C10 witness: in the initial state, voter 1 successfully votes for the bare key
(2, 3) although no proposal is stored there, and the winner pointer moves to it. -/
theorem claim_vote_skips_registration_check_witness :
    (∃ s', vote daoInit 1 2 3 = Except.ok s' ∧
        lookupA s'.votes (2, 3) = some (newTotal daoInit (2, 3)) ∧
        (newTotal daoInit (2, 3) > daoInit.winning_proposal_votes →
          s'.winning_proposal = some (2, 3))) ∧
      (∀ (t : DAOState) (j q : Identity) (m : Nat) (e : DAOError),
        vote t j q m = Except.error e →
        e = DAOError.AlreadyVoted ∧ j ∈ t.has_voted) :=
  claim_vote_skips_registration_check daoInit 1 2 3 (by decide)
